import Mathlib

/-!
Verification development for the WoodStain firmware (ewanas/WoodStain).

The repository holds several revisions of an Arduino wood-staining machine
program.  We shallowly embed the parts of the code that the claims C1..C10
concern: the spray-selection chain of the stroke functions, the
limit/direction mapping of limits.h, the macro-expanded assertions of
transition, the stroke-counter updates, the top-level run sequence, the
polling wait primitives, and the ramped goUntil motion loop.  Machine ints
are modelled as ℤ/ℕ (all values involved are tiny), the float mot_delay of
goUntil as ℚ with the C truncating cast rendered as Int.floor on nonnegative
values, digital inputs as read streams ℕ → Bool indexed by the number of
digitalRead calls performed, and the nonterminating while loops by fuel,
returning none when the fuel runs out.
-/

namespace WoodStain

/-- Direction codes, from WoodStain.ino (`#define UP 0` etc.). -/
def UP : ℤ := 0

/-- Direction code DOWN. -/
def DOWN : ℤ := 1

/-- Direction code LEFT. -/
def LEFT : ℤ := 2

/-- Direction code RIGHT. -/
def RIGHT : ℤ := 3

/-- Induction state HORIZONTAL (the value used by the .ino code). -/
def HORIZONTAL : ℤ := 0

/-- Induction state VERTICAL. -/
def VERTICAL : ℤ := 1

/-- Induction state NONE (no induction motor energised). -/
def NONE : ℤ := 2

/-- Limit switch pin TOP_LIMIT, from WoodStain.h. -/
def TOP_LIMIT : ℤ := 3

/-- Limit switch pin BOTTOM_LIMIT. -/
def BOTTOM_LIMIT : ℤ := 4

/-- Limit switch pin LEFT_LIMIT. -/
def LEFT_LIMIT : ℤ := 5

/-- Limit switch pin RIGHT_LIMIT. -/
def RIGHT_LIMIT : ℤ := 6

/-- Solenoid pin TOP_SPRAY. -/
def TOP_SPRAY : ℤ := 7

/-- Solenoid pin BOTTOM_SPRAY. -/
def BOTTOM_SPRAY : ℤ := 8

/-- Relay pin MOTOR_STATE_PIN powering the induction motors. -/
def MOTOR_STATE_PIN : ℤ := 11

/-- Induction motor select pin (horizontal). -/
def HORIZONTAL_MOTOR_SELECT : ℤ := 10

/-- Induction motor select pin (vertical; same physical pin in WoodStain.h). -/
def VERTICAL_MOTOR_SELECT : ℤ := 10

/-- Indicator LED pin. -/
def STATUS_LED : ℤ := 13

/-- Spray threshold MIN of WoodStain.ino. -/
def MIN : ℤ := 2

/-- Spray threshold MAX of WoodStain.ino. -/
def MAX : ℤ := 15

/-- Steps per transition, `#define STROKE_GAP 1000` of the first variant. -/
def STROKE_GAP : ℕ := 1000

/-- Sentinel `#define LIMIT -1` of src/WoodStain.h meaning: no step budget. -/
def LIMIT : ℤ := -1

/-- Reasons passed to Stop; the C code passes strings, we name them. -/
inductive StopReason
  | unknownDirection
  | unknownLimit
  | alreadyPressed
  | bothPressed
  | releaseUnpressed
  | pressAlreadyPressed
  | limitBeforeTransitionDone
  deriving DecidableEq, Repr

/-- Spray valve configurations (TOP_SPRAY level, BOTTOM_SPRAY level). -/
inductive SprayConfig
  | topOnly
  | bottomOnly
  | both
  | off
  deriving DecidableEq, Repr

/-- The spray selection chain of horizontalStroke (WoodStain.ino 405-411),
of stroke (src/src/WoodStain.ino 209-215) and of the other stroke variants,
translated clause for clause:
`if (c >= MIN && c <= MAX) bothSprays(); else if (c < MIN) topSpray();
else if (c > MAX) bottomSpray();`.  When no clause fires the code writes
nothing, which we render as `none`. -/
def strokeSprayChain (minT maxT c : ℤ) : Option SprayConfig :=
  if minT ≤ c ∧ c ≤ maxT then some SprayConfig.both
  else if c < minT then some SprayConfig.topOnly
  else if maxT < c then some SprayConfig.bottomOnly
  else none

/-- Modelled from the spec: `selectSpray(strokeCount)` yields TopOnly below
MIN, Both between MIN and MAX inclusive, BottomOnly above MAX. -/
def spraySelectSpec (minT maxT c : ℤ) : SprayConfig :=
  if c < minT then SprayConfig.topOnly
  else if c ≤ maxT then SprayConfig.both
  else SprayConfig.bottomOnly

/-- verticalStroke of WoodStain.ino (441-451): it calls `bothSprays ()`
unconditionally, then after the stroke increments its static counter; the
applied spray does not consult the counter at all. -/
def verticalStrokeModel (c : ℤ) : SprayConfig × ℤ :=
  (SprayConfig.both, c + 1)

/-- Claim C1: the spray configuration applied at the start of a stroke is
determined by the axis's stroke counter through the MIN/MAX thresholds.
This holds for horizontalStroke and for the dual-axis stroke(axis), whose
shared selection chain agrees with the spec's selectSpray whenever
MIN ≤ MAX; but verticalStroke of the induction-motor variant applies Both
unconditionally (second conjunct), so the claim as stated fails there. -/
theorem C1_spray_policy (minT maxT c : ℤ) (_h : minT ≤ maxT) :
    strokeSprayChain minT maxT c = some (spraySelectSpec minT maxT c) ∧
    (verticalStrokeModel c).1 = SprayConfig.both := by
  refine ⟨?_, rfl⟩
  unfold strokeSprayChain spraySelectSpec
  split_ifs with h1 h2 h3 h4 h5 <;> first | rfl | omega

/-- Witness for C1_spray_policy at minT = 2, maxT = 15, c = 0. -/
theorem C1_spray_policy_witness :
    (2 : ℤ) ≤ 15 ∧
      (strokeSprayChain 2 15 0 = some (spraySelectSpec 2 15 0) ∧
        (verticalStrokeModel 0).1 = SprayConfig.both) :=
  ⟨by decide, C1_spray_policy 2 15 0 (by decide)⟩

/-- Counterexample for C1 as stated: on the vertical axis with counter 0
(below MIN = 2) the claim demands the top spray only, but verticalStroke
turns on both sprays. -/
theorem C1_counterexample :
    (verticalStrokeModel 0).1 = SprayConfig.both ∧
      spraySelectSpec 2 15 0 = SprayConfig.topOnly ∧
      (verticalStrokeModel 0).1 ≠ spraySelectSpec 2 15 0 := by
  decide

/-- getLimit of limits.h (22-44) and WoodStain.ino (156-178): a switch on
the direction; the default branch calls Stop. -/
def getLimit (direction : ℤ) : Except StopReason ℤ :=
  if direction = LEFT then Except.ok LEFT_LIMIT
  else if direction = RIGHT then Except.ok RIGHT_LIMIT
  else if direction = UP then Except.ok TOP_LIMIT
  else if direction = DOWN then Except.ok BOTTOM_LIMIT
  else Except.error StopReason.unknownDirection

/-- getDirection of limits.h (49-71): the inverse switch; the default
branch calls Stop. -/
def getDirection (limit : ℤ) : Except StopReason ℤ :=
  if limit = LEFT_LIMIT then Except.ok LEFT
  else if limit = RIGHT_LIMIT then Except.ok RIGHT
  else if limit = BOTTOM_LIMIT then Except.ok DOWN
  else if limit = TOP_LIMIT then Except.ok UP
  else Except.error StopReason.unknownLimit

/-- Claim C8: getLimit and getDirection are mutual inverses on the four
directions and the four limit pins, with the mapping Up↔Top, Down↔Bottom,
Left↔Left, Right↔Right, and every other argument hits the fatal default
branch. -/
theorem C8_limit_direction_inverse :
    (getLimit UP = Except.ok TOP_LIMIT ∧ getLimit DOWN = Except.ok BOTTOM_LIMIT ∧
      getLimit LEFT = Except.ok LEFT_LIMIT ∧ getLimit RIGHT = Except.ok RIGHT_LIMIT) ∧
    (∀ d : ℤ, (d = UP ∨ d = DOWN ∨ d = LEFT ∨ d = RIGHT) →
      ∃ s, getLimit d = Except.ok s ∧ getDirection s = Except.ok d) ∧
    (∀ s : ℤ, (s = TOP_LIMIT ∨ s = BOTTOM_LIMIT ∨ s = LEFT_LIMIT ∨ s = RIGHT_LIMIT) →
      ∃ d, getDirection s = Except.ok d ∧ getLimit d = Except.ok s) ∧
    (∀ d : ℤ, ¬(d = UP ∨ d = DOWN ∨ d = LEFT ∨ d = RIGHT) →
      getLimit d = Except.error StopReason.unknownDirection) ∧
    (∀ s : ℤ, ¬(s = TOP_LIMIT ∨ s = BOTTOM_LIMIT ∨ s = LEFT_LIMIT ∨ s = RIGHT_LIMIT) →
      getDirection s = Except.error StopReason.unknownLimit) := by
  refine ⟨⟨rfl, rfl, rfl, rfl⟩, ?_, ?_, ?_, ?_⟩
  · rintro d (rfl | rfl | rfl | rfl)
    · exact ⟨TOP_LIMIT, rfl, rfl⟩
    · exact ⟨BOTTOM_LIMIT, rfl, rfl⟩
    · exact ⟨LEFT_LIMIT, rfl, rfl⟩
    · exact ⟨RIGHT_LIMIT, rfl, rfl⟩
  · rintro s (rfl | rfl | rfl | rfl)
    · exact ⟨UP, rfl, rfl⟩
    · exact ⟨DOWN, rfl, rfl⟩
    · exact ⟨LEFT, rfl, rfl⟩
    · exact ⟨RIGHT, rfl, rfl⟩
  · intro d hd
    push_neg at hd
    obtain ⟨h0, h1, h2, h3⟩ := hd
    simp only [getLimit, UP, DOWN, LEFT, RIGHT] at *
    rw [if_neg h2, if_neg h3, if_neg h0, if_neg h1]
  · intro s hs
    push_neg at hs
    obtain ⟨h0, h1, h2, h3⟩ := hs
    simp only [getDirection, TOP_LIMIT, BOTTOM_LIMIT, LEFT_LIMIT, RIGHT_LIMIT] at *
    rw [if_neg h2, if_neg h3, if_neg h1, if_neg h0]

/-- Witness for C8_limit_direction_inverse: the round trip at direction UP. -/
theorem C8_limit_direction_inverse_witness :
    ((0 : ℤ) = UP ∨ (0 : ℤ) = DOWN ∨ (0 : ℤ) = LEFT ∨ (0 : ℤ) = RIGHT) ∧
      ∃ s, getLimit 0 = Except.ok s ∧ getDirection s = Except.ok 0 :=
  ⟨by decide, C8_limit_direction_inverse.2.1 0 (by decide)⟩

/-- Whether the debug build of transition (WoodStain.ino 205-222) calls Stop
before issuing any step.  The assert macro is `#define assert(c,e) if (!c)
do Stop (e)` without parenthesising c, so in
`assert ((direction == UP || direction == DOWN) && inductionState == HORIZONTAL, ...)`
the `!` binds only to the first parenthesised group; the expansion is
`if (!(direction == UP || direction == DOWN) && inductionState == HORIZONTAL) Stop;`
and likewise for the second assert.  Translated clause for clause. -/
def transitionStopsBeforeStep (direction inductionState : ℤ) : Bool :=
  if (!(direction == UP || direction == DOWN)) && (inductionState == HORIZONTAL) then
    true
  else if (!(direction == LEFT || direction == RIGHT)) && (inductionState == VERTICAL) then
    true
  else false

/-- Counterexample for C9 as stated: the claim says every call to
transition triggers a fatal Stop before any step; at direction = UP with
inductionState = HORIZONTAL no assert fires and stepping proceeds. -/
theorem C9_counterexample : transitionStopsBeforeStep UP HORIZONTAL = false := by
  decide

/-- Claim C9 amended: because the assert macro's `!c` negates only the
first parenthesised conjunct, transition Stops before stepping exactly when
(direction is not vertical and inductionState = HORIZONTAL) or (direction
is not horizontal and inductionState = VERTICAL); in particular every
matched pair (vertical transition during HORIZONTAL strokes, horizontal
transition during VERTICAL strokes) passes both asserts and steps, while
mismatched pairs Stop. -/
theorem C9_transition_assert_behavior :
    (∀ d s : ℤ, transitionStopsBeforeStep d s =
      ((!(d == UP || d == DOWN)) && (s == HORIZONTAL) ||
        (!(d == LEFT || d == RIGHT)) && (s == VERTICAL))) ∧
    transitionStopsBeforeStep UP HORIZONTAL = false ∧
    transitionStopsBeforeStep DOWN HORIZONTAL = false ∧
    transitionStopsBeforeStep LEFT VERTICAL = false ∧
    transitionStopsBeforeStep RIGHT VERTICAL = false ∧
    transitionStopsBeforeStep LEFT HORIZONTAL = true ∧
    transitionStopsBeforeStep RIGHT HORIZONTAL = true ∧
    transitionStopsBeforeStep UP VERTICAL = true ∧
    transitionStopsBeforeStep DOWN VERTICAL = true := by
  refine ⟨?_, by decide, by decide, by decide, by decide, by decide, by decide,
    by decide, by decide⟩
  intro d s
  unfold transitionStopsBeforeStep
  split_ifs with h1 h2 <;> simp_all

/-- The per-axis stroke counters of src/src/WoodStain.ino (struct strokes). -/
structure Strokes where
  vertical : ℤ
  horizontal : ℤ
  deriving DecidableEq, Repr

/-- A pointer into the strokes struct, as taken by
`int* strokeCount = (axis == VERTICAL ? &strokes.vertical : &strokes.horizontal);`. -/
inductive CounterPtr
  | verticalField
  | horizontalField
  | pastVertical
  | pastHorizontal
  deriving DecidableEq, Repr

/-- Pointer arithmetic `p + 1` on a field pointer. -/
def ptrInc : CounterPtr → CounterPtr
  | CounterPtr.verticalField => CounterPtr.pastVertical
  | CounterPtr.horizontalField => CounterPtr.pastHorizontal
  | p => p

/-- Reading through a field pointer. -/
def readPtr (s : Strokes) : CounterPtr → ℤ
  | CounterPtr.verticalField => s.vertical
  | CounterPtr.horizontalField => s.horizontal
  | _ => 0

/-- The statement `*strokeCount++;` closing stroke (src/src/WoodStain.ino
223 and the third variant in src/WoodStain.ino at 1219).  In C this parses
as `*(strokeCount++)`: the local pointer is post-incremented, the old
pointee is read and the value discarded; no store to the counter happens.
The result is the (unchanged) struct, the advanced local pointer and the
discarded value. -/
def derefPostInc (s : Strokes) (p : CounterPtr) : Strokes × CounterPtr × ℤ :=
  (s, ptrInc p, readPtr s p)

/-- The effect of one stroke(axis) call on the strokes struct: select the
field pointer, then run `*strokeCount++;`. -/
def strokeCounterAfterPtr (s : Strokes) (axis : ℤ) : Strokes :=
  let p := if axis = VERTICAL then CounterPtr.verticalField else CounterPtr.horizontalField
  (derefPostInc s p).1

/-- n completed strokes on the horizontal axis, counter effects only, for
the `*strokeCount++` variants. -/
def runStrokesPtr : ℕ → Strokes → Strokes
  | 0, s => s
  | n + 1, s => runStrokesPtr n (strokeCounterAfterPtr s HORIZONTAL)

/-- The static-counter stroke of the unnamed early variant (part_000, with
MIN = 2, MAX = 4): records the spray chain result at the current counter,
then `strokeCount++`.  Returns the sprays applied (first stroke first) and
the final counter after n strokes. -/
def runStrokesStatic : ℕ → ℤ → List (Option SprayConfig) × ℤ
  | 0, c => ([], c)
  | n + 1, c =>
    let rest := runStrokesStatic n (c + 1)
    (strokeSprayChain 2 4 c :: rest.1, rest.2)

/-- Claim C2 evaluated on the code: in the cited stroke variants the
closing `*strokeCount++;` does not change the counter, so after 6 completed
strokes the horizontal counter is still 0, not 6.  By contrast the
static-counter variant (part_000) increments once per stroke: 6 strokes
from 0 end at 6 and produce the spray sequence
[TopOnly, TopOnly, Both, Both, Both, BottomOnly] claimed by the spec's
end-to-end scenario. -/
theorem C2_counter_unchanged :
    runStrokesPtr 6 ⟨0, 0⟩ = ⟨0, 0⟩ ∧
    (runStrokesPtr 6 ⟨0, 0⟩).horizontal ≠ 6 ∧
    runStrokesStatic 6 0 =
      ([some SprayConfig.topOnly, some SprayConfig.topOnly, some SprayConfig.both,
        some SprayConfig.both, some SprayConfig.both, some SprayConfig.bottomOnly], 6) := by
  refine ⟨rfl, by decide, by decide⟩

/-- Top-level actions of loop() in WoodStain.ino (638-658). -/
inductive RunAct
  | allOff
  | goUntilLimit (direction : ℤ)
  | engageHorizontalMotor
  | engageVerticalMotor
  | strokesPass (direction : ℤ)
  | finalStop
  deriving DecidableEq, Repr

/-- The literal call sequence of loop() (WoodStain.ino 638-658):
turnOffAll; goUntil(DOWN); horizontalMotor(); doStrokes(UP); turnOffAll;
goUntil(LEFT); doStrokes(RIGHT); Stop.  No verticalMotor() call occurs. -/
def loopActions : List RunAct :=
  [RunAct.allOff, RunAct.goUntilLimit DOWN, RunAct.engageHorizontalMotor,
   RunAct.strokesPass UP, RunAct.allOff, RunAct.goUntilLimit LEFT,
   RunAct.strokesPass RIGHT, RunAct.finalStop]

/-- Modelled from the spec: the top-level run sequence of section 4.6 and
of the file's own header comment (engage the perpendicular axis's motor
before its pass of strokes). -/
def specRunSequence : List RunAct :=
  [RunAct.allOff, RunAct.goUntilLimit DOWN, RunAct.engageHorizontalMotor,
   RunAct.strokesPass UP, RunAct.allOff, RunAct.goUntilLimit LEFT,
   RunAct.engageVerticalMotor, RunAct.strokesPass RIGHT, RunAct.finalStop]

/-- Claim C7 evaluated on the code: loop() never engages the vertical
induction motor, although the spec (and the file's own header, which says
to start the vertical induction motor before doing vertical strokes)
requires it right before the vertical pass; the two sequences differ
exactly there. -/
theorem C7_missing_vertical_motor :
    RunAct.engageVerticalMotor ∉ loopActions ∧
    loopActions ≠ specRunSequence ∧
    RunAct.engageVerticalMotor ∈ specRunSequence ∧
    loopActions.take 6 = specRunSequence.take 6 ∧
    loopActions.drop 6 = specRunSequence.drop 7 := by
  refine ⟨by decide, by decide, by decide, by decide, by decide⟩

/-- The polling loop of waitPressAny (src/limits.h 9-17):
`while (digitalRead (pins at i mod len) == LOW) i++;`.  One digitalRead per
iteration; the read stream is indexed by i itself.  Fuel-based; none means
the fuel ran out before any pin read pressed. -/
def waitPressAnyLoop (pins : List ℤ) (σ : ℕ → ℤ → Bool) : ℕ → ℕ → Option ℕ
  | 0, _ => none
  | fuel + 1, i =>
    if σ i (pins.getD (i % pins.length) 0) = false then waitPressAnyLoop pins σ fuel (i + 1)
    else some i

/-- waitPressAny of src/limits.h (9-17): poll the array cyclically from
index 0, debounce, return the pin that read pressed. -/
def waitPressAny (pins : List ℤ) (σ : ℕ → ℤ → Bool) (fuel : ℕ) : Option (ℕ × ℤ) :=
  (waitPressAnyLoop pins σ fuel 0).map (fun i => (i, pins.getD (i % pins.length) 0))

/-- Helper: a successful waitPressAnyLoop exit read its pin as pressed. -/
theorem waitPressAnyLoop_pressed (pins : List ℤ) (σ : ℕ → ℤ → Bool) :
    ∀ fuel i j, waitPressAnyLoop pins σ fuel i = some j →
      σ j (pins.getD (j % pins.length) 0) = true := by
  intro fuel
  induction fuel with
  | zero => intro i j h; simp [waitPressAnyLoop] at h
  | succ n ih =>
    intro i j h
    unfold waitPressAnyLoop at h
    by_cases hr : σ i (pins.getD (i % pins.length) 0) = false
    · rw [if_pos hr] at h
      exact ih (i + 1) j h
    · rw [if_neg hr] at h
      cases h
      simpa using hr

/-- Claim C10: whenever waitPressAny returns, the returned value is an
element of the (non-empty) pin array that read pressed at the poll that
found it, namely the entry at the poll index mod the length; and if the
first pin reads pressed at the very first poll the function returns it
immediately, regardless of the state of the other pins - there is no
both-pressed fault check and no precondition on the initial states. -/
theorem C10_wait_press_any :
    (∀ (pins : List ℤ) (σ : ℕ → ℤ → Bool) (fuel i : ℕ) (p : ℤ), pins ≠ [] →
        waitPressAny pins σ fuel = some (i, p) →
        p = pins.getD (i % pins.length) 0 ∧ p ∈ pins ∧ σ i p = true) ∧
    (∀ (pins : List ℤ) (σ : ℕ → ℤ → Bool) (fuel : ℕ), pins ≠ [] → 1 ≤ fuel →
        σ 0 (pins.getD 0 0) = true →
        waitPressAny pins σ fuel = some (0, pins.getD 0 0)) := by
  constructor
  · intro pins σ fuel i p hne h
    unfold waitPressAny at h
    cases hl : waitPressAnyLoop pins σ fuel 0 with
    | none => rw [hl] at h; simp at h
    | some j =>
      rw [hl, Option.map_some'] at h
      injection h with h2
      have hji : j = i := congrArg Prod.fst h2
      have hpv : pins.getD (j % pins.length) 0 = p := congrArg Prod.snd h2
      subst hji
      subst hpv
      have hlen : 0 < pins.length := List.length_pos.mpr hne
      have hidx : j % pins.length < pins.length := Nat.mod_lt _ hlen
      refine ⟨rfl, ?_, waitPressAnyLoop_pressed pins σ fuel 0 j hl⟩
      rw [List.getD_eq_getElem pins 0 hidx]
      exact List.getElem_mem hidx
  · intro pins σ fuel hne hfuel h
    cases fuel with
    | zero => omega
    | succ n =>
      unfold waitPressAny waitPressAnyLoop
      rw [Nat.zero_mod, h]
      simp

/-- Witness for C10_wait_press_any: both pins pressed from the start; the
function returns the first array entry. -/
theorem C10_wait_press_any_witness :
    ([5, 6] : List ℤ) ≠ [] ∧ 1 ≤ 3 ∧
      (fun _ _ => true : ℕ → ℤ → Bool) 0 (([5, 6] : List ℤ).getD 0 0) = true ∧
      waitPressAny [5, 6] (fun _ _ => true) 3 = some (0, ([5, 6] : List ℤ).getD 0 0) :=
  ⟨by decide, by decide, rfl,
    C10_wait_press_any.2 [5, 6] (fun _ _ => true) 3 (by decide) (by decide) rfl⟩

/-- Result of a blocking primitive: either Stop was entered with a reason
(the call never returns control), or it returned a value. -/
inductive Outcome (α : Type)
  | halted (r : StopReason)
  | ok (a : α)
  deriving DecidableEq, Repr

/-- Busy loop `while (digitalRead (pin));`: skip reads until one is LOW;
returns the time after the read that broke the loop. -/
def waitLow (σ : ℕ → ℤ → Bool) (pin : ℤ) : ℕ → ℕ → Option ℕ
  | 0, _ => none
  | fuel + 1, t => if σ t pin then waitLow σ pin fuel (t + 1) else some (t + 1)

/-- Busy loop `while (!digitalRead (pin));`. -/
def waitHigh (σ : ℕ → ℤ → Bool) (pin : ℤ) : ℕ → ℕ → Option ℕ
  | 0, _ => none
  | fuel + 1, t => if σ t pin then some (t + 1) else waitHigh σ pin fuel (t + 1)

/-- waitRelease of WoodStain.ino (323-329): the assert macro expands to
`if (!digitalRead (limit)) Stop`, so an unpressed switch at entry is fatal;
then wait for a LOW read and debounce. -/
def waitRelease (σ : ℕ → ℤ → Bool) (limit : ℤ) (fuel t : ℕ) : Option (Outcome ℕ) :=
  if σ t limit = false then some (Outcome.halted StopReason.releaseUnpressed)
  else (waitLow σ limit fuel (t + 1)).map Outcome.ok

/-- waitPress of WoodStain.ino (336-342): the assert expands to
`if (!!digitalRead (limit)) Stop`, so a pressed switch at entry is fatal;
then wait for a HIGH read and debounce. -/
def waitPress (σ : ℕ → ℤ → Bool) (limit : ℤ) (fuel t : ℕ) : Option (Outcome ℕ) :=
  if σ t limit = true then some (Outcome.halted StopReason.pressAlreadyPressed)
  else (waitHigh σ limit fuel (t + 1)).map Outcome.ok

/-- waitSecondRelease of WoodStain.ino (348-352):
waitRelease; waitPress; waitRelease. -/
def waitSecondRelease (σ : ℕ → ℤ → Bool) (limit : ℤ) (fuel t : ℕ) : Option (Outcome ℕ) :=
  match waitRelease σ limit fuel t with
  | none => none
  | some (Outcome.halted r) => some (Outcome.halted r)
  | some (Outcome.ok t1) =>
    match waitPress σ limit fuel t1 with
    | none => none
    | some (Outcome.halted r) => some (Outcome.halted r)
    | some (Outcome.ok t2) =>
      match waitRelease σ limit fuel t2 with
      | none => none
      | some (Outcome.halted r) => some (Outcome.halted r)
      | some (Outcome.ok t3) => some (Outcome.ok t3)

/-- The wait loop of waitPressAnyOfTwo (WoodStain.ino 276):
`while (!((A = digitalRead (a)) || (B = digitalRead (b))));`.
Each iteration reads a first; if that is HIGH the `||` short-circuits and B
keeps its previous value (its indeterminate initial value, bInit, if b was
never read).  Returns (A, B, next read time). -/
def wpLoop (σ : ℕ → ℤ → Bool) (a b : ℤ) : ℕ → ℕ → Bool → Option (Bool × Bool × ℕ)
  | 0, _, _ => none
  | fuel + 1, t, B =>
    if σ t a then some (true, B, t + 1)
    else if σ (t + 1) b then some (false, true, t + 2)
    else wpLoop σ a b fuel (t + 2) false

/-- waitPressAnyOfTwo of WoodStain.ino (267-293).  The entry assert
expands to `if (digitalRead (a) || digitalRead (b)) Stop` (short-circuit:
b is only read when a reads LOW); then the wait loop; then
`if (A && B) Stop ("Both ... pressed")`; then wait for the winner's
release and return its pin. -/
def waitPressAnyOfTwo (σ : ℕ → ℤ → Bool) (a b : ℤ) (bInit : Bool) (fuel t : ℕ) :
    Option (Outcome (ℤ × ℕ)) :=
  if σ t a then some (Outcome.halted StopReason.alreadyPressed)
  else if σ (t + 1) b then some (Outcome.halted StopReason.alreadyPressed)
  else
    match wpLoop σ a b fuel (t + 2) bInit with
    | none => none
    | some (A, B, t1) =>
      if A && B then some (Outcome.halted StopReason.bothPressed)
      else
        (if A then waitLow σ a fuel t1
         else if B then waitLow σ b fuel t1
         else some t1).map (fun t2 => Outcome.ok (if A then a else b, t2))

/-- One write of the Stop procedure's shutdown phase: (pin, level). -/
def stopWrites : List (ℤ × Bool) :=
  [(MOTOR_STATE_PIN, false), (TOP_SPRAY, false), (BOTTOM_SPRAY, false)]

/-- Apply a list of pin writes, in order, to a pin-state map. -/
def applyWrites (ws : List (ℤ × Bool)) (s : ℤ → Bool) : ℤ → Bool :=
  ws.foldl (fun st w p => if p = w.1 then w.2 else st p) s

/-- One blink action of the terminal halt loop of Stop (WoodStain.ino
542-547): which pin is written, to which level, followed by which delay. -/
structure BlinkAct where
  pin : ℤ
  level : Bool
  delayMs : ℕ
  deriving DecidableEq, Repr

/-- The infinite write stream of Stop's hang loop: the status LED driven
HIGH, LOW, HIGH, ... with a 300 ms delay after each write; nothing else is
ever written. -/
def stopBlink (n : ℕ) : BlinkAct :=
  ⟨STATUS_LED, n % 2 == 0, 300⟩

/-- The actuator output pins (sprays and motor control). -/
def actuatorPins : List ℤ :=
  [TOP_SPRAY, BOTTOM_SPRAY, MOTOR_STATE_PIN, HORIZONTAL_MOTOR_SELECT, VERTICAL_MOTOR_SELECT]

/-- Claim C6: if the wait loop of waitPressAnyOfTwo exits with both A and B
read as pressed, the call ends in Stop with the both-pressed fault (first
conjunct; `halted` means the call never returns).  Stop first drives the
motor power and both sprays off, whatever the previous output state was
(second conjunct, Stop's turnOffAll), and then blinks only the status LED
at the fixed 300 ms cadence forever, alternating levels and never touching
an actuator pin again (third conjunct). -/
theorem C6_both_pressed_halt :
    (∀ (σ : ℕ → ℤ → Bool) (a b : ℤ) (bInit : Bool) (fuel t t1 : ℕ),
        σ t a = false → σ (t + 1) b = false →
        wpLoop σ a b fuel (t + 2) bInit = some (true, true, t1) →
        waitPressAnyOfTwo σ a b bInit fuel t =
          some (Outcome.halted StopReason.bothPressed)) ∧
    (∀ s : ℤ → Bool,
        applyWrites stopWrites s TOP_SPRAY = false ∧
        applyWrites stopWrites s BOTTOM_SPRAY = false ∧
        applyWrites stopWrites s MOTOR_STATE_PIN = false) ∧
    (∀ n : ℕ, (stopBlink n).pin = STATUS_LED ∧ (stopBlink n).pin ∉ actuatorPins ∧
        (stopBlink n).delayMs = 300 ∧ (stopBlink n).level = !(stopBlink (n + 1)).level) := by
  refine ⟨?_, ?_, ?_⟩
  · intro σ a b bInit fuel t t1 ha hb hloop
    unfold waitPressAnyOfTwo
    rw [ha, hb, hloop]
    simp
  · intro s
    refine ⟨?_, ?_, ?_⟩ <;>
      simp [applyWrites, stopWrites, TOP_SPRAY, BOTTOM_SPRAY, MOTOR_STATE_PIN]
  · intro n
    refine ⟨rfl, show STATUS_LED ∉ actuatorPins by decide, rfl, ?_⟩
    rcases Nat.mod_two_eq_zero_or_one n with h | h <;>
      simp [stopBlink, Nat.add_mod, h]

/-- Read stream for the C6 witness: the a-pin (5) reads pressed exactly at
read index 2, the first read of the wait loop. -/
def sigBothPressed : ℕ → ℤ → Bool := fun t p => decide (t = 2 ∧ p = 5)

/-- Witness for C6_both_pressed_halt: with B's indeterminate initial value
true and a pressed on the loop's first read, the loop exits with
A = B = true and the call halts with the both-pressed fault. -/
theorem C6_both_pressed_halt_witness :
    sigBothPressed 0 5 = false ∧ sigBothPressed 1 6 = false ∧
      wpLoop sigBothPressed 5 6 4 2 true = some (true, true, 3) ∧
      waitPressAnyOfTwo sigBothPressed 5 6 true 4 0 =
        some (Outcome.halted StopReason.bothPressed) :=
  ⟨rfl, rfl, rfl, C6_both_pressed_halt.1 sigBothPressed 5 6 true 4 0 3 rfl rfl rfl⟩

/-- horizontalStrokeWait of WoodStain.ino (360-391), composed from
waitPressAnyOfTwo and waitSecondRelease exactly as in the source; b1 and b2
are the indeterminate initial values of the B local of the two
waitPressAnyOfTwo calls. -/
def horizontalStrokeWait (σ : ℕ → ℤ → Bool) (b1 b2 : Bool) (fuel : ℕ) :
    Option (Outcome ℤ) :=
  match waitPressAnyOfTwo σ LEFT_LIMIT RIGHT_LIMIT b1 fuel 0 with
  | none => none
  | some (Outcome.halted r) => some (Outcome.halted r)
  | some (Outcome.ok (limit, t)) =>
    if limit = LEFT_LIMIT then
      match waitPressAnyOfTwo σ LEFT_LIMIT RIGHT_LIMIT b2 fuel t with
      | none => none
      | some (Outcome.halted r) => some (Outcome.halted r)
      | some (Outcome.ok (limit2, t2)) =>
        if limit2 = LEFT_LIMIT then some (Outcome.ok RIGHT_LIMIT)
        else
          match waitSecondRelease σ RIGHT_LIMIT fuel t2 with
          | none => none
          | some (Outcome.halted r) => some (Outcome.halted r)
          | some (Outcome.ok _) => some (Outcome.ok LEFT_LIMIT)
    else
      match waitPressAnyOfTwo σ LEFT_LIMIT RIGHT_LIMIT b2 fuel t with
      | none => none
      | some (Outcome.halted r) => some (Outcome.halted r)
      | some (Outcome.ok (limit2, t2)) =>
        if limit2 = RIGHT_LIMIT then some (Outcome.ok LEFT_LIMIT)
        else
          match waitSecondRelease σ LEFT_LIMIT fuel t2 with
          | none => none
          | some (Outcome.halted r) => some (Outcome.halted r)
          | some (Outcome.ok _) => some (Outcome.ok RIGHT_LIMIT)

/-- Read stream for the horizontal boundary switches built from the lists
of read indices at which the Left pin (5) and the Right pin (6) read
pressed; every other read is LOW. -/
def streamLR (la lb : List ℕ) : ℕ → ℤ → Bool := fun t p =>
  if p = LEFT_LIMIT then la.contains t
  else if p = RIGHT_LIMIT then lb.contains t
  else false

/-- Press sequence [Left, Left]: one Left tap consumed by each
waitPressAnyOfTwo call. -/
def tapsLL : ℕ → ℤ → Bool := streamLR [2, 6] []

/-- Press sequence [Right, Right]. -/
def tapsRR : ℕ → ℤ → Bool := streamLR [] [3, 8]

/-- Press sequence [Left, Right, Right, Right]: Left tap, then a Right tap
consumed by the second waitPressAnyOfTwo, then a Right press held at the
entry of waitSecondRelease and one further full Right press consumed by
its waitPress. -/
def tapsLRRR : ℕ → ℤ → Bool := streamLR [2] [7, 9, 10, 14, 15]

/-- Press sequence [Right, Left, Left, Left], mirror of tapsLRRR. -/
def tapsRLLL : ℕ → ℤ → Bool := streamLR [7, 9, 10, 14, 15] [3]

/-- Press sequence [Left, Right, Right] exactly: Left tap at read 2, Right
taps at reads 7 and 12 - three presses in total, the second Right press
arriving after the second waitPressAnyOfTwo has already consumed the first
Right tap's release. -/
def tapsLRR : ℕ → ℤ → Bool := streamLR [2] [7, 12]

/-- Claim C4 amended: double-tapping the same switch works as claimed:
[A, A] returns the opposite switch.  In the cross case the code consumes
the second press's release inside waitPressAnyOfTwo, so waitSecondRelease
requires B pressed again at its entry and one further full press of B:
[A, B, B, B] returns A. -/
theorem C4_double_tap :
    horizontalStrokeWait tapsLL false false 32 = some (Outcome.ok RIGHT_LIMIT) ∧
    horizontalStrokeWait tapsRR false false 32 = some (Outcome.ok LEFT_LIMIT) ∧
    horizontalStrokeWait tapsLRRR false false 32 = some (Outcome.ok LEFT_LIMIT) ∧
    horizontalStrokeWait tapsRLLL false false 32 = some (Outcome.ok RIGHT_LIMIT) := by
  refine ⟨rfl, rfl, rfl, rfl⟩

/-- Counterexample for C4 as stated: with exactly the press sequence
[Left, Right, Right] the run does not return endpoint Left; it hits the
fatal pressed-at-entry assert of waitRelease inside waitSecondRelease,
because the Right switch reads unpressed when the second-release protocol
begins. -/
theorem C4_counterexample :
    horizontalStrokeWait tapsLRR false false 32 =
        some (Outcome.halted StopReason.releaseUnpressed) ∧
      horizontalStrokeWait tapsLRR false false 32 ≠ some (Outcome.ok LEFT_LIMIT) := by
  refine ⟨rfl, by decide⟩

/-- Execution state of goUntil (src/src/WoodStain.ino 95-154 and the third
variant in src/WoodStain.ino at 1090-1150): t counts digitalRead calls on
the limit pin, k is stepsSoFar, v is the float mot_delay (exact rational
here), out the per-step delays applied so far, first step first.  Each
applied delay is the C cast `(int) mot_delay` (truncation; Int.floor on
these nonnegative values). -/
structure MoveSt where
  t : ℕ
  k : ℕ
  v : ℚ
  out : List ℤ
  deriving DecidableEq, Repr

/-- The mot_delay update after one ramp step (goUntil):
`if (mot_delay > p.min) then (if (mot_delay - decrement >= p.min)
mot_delay -= decrement else mot_delay = p.min)`. -/
def rampUpdate (m d v : ℚ) : ℚ :=
  if v > m then (if v - d ≥ m then v - d else m) else v

/-- The first loop of goUntil:
`while (!digitalRead (limit) && stepsSoFar < p.stepsToStart)` with the
budget break `if (steps != LIMIT) if (stepsSoFar > steps) break;` then one
step at delay `(int) mot_delay` and the ramp update.  The head condition
always consumes one limit read (C evaluates digitalRead first). -/
def rampLoop (σ : ℕ → Bool) (steps : ℤ) (R : ℕ) (m d : ℚ) : ℕ → MoveSt → Option MoveSt
  | 0, _ => none
  | fuel + 1, st =>
    if σ st.t then some { st with t := st.t + 1 }
    else if R ≤ st.k then some { st with t := st.t + 1 }
    else if steps ≠ LIMIT ∧ steps < (st.k : ℤ) then some { st with t := st.t + 1 }
    else
      rampLoop σ steps R m d fuel
        { t := st.t + 1, k := st.k + 1, v := rampUpdate m d st.v, out := st.out ++ [⌊st.v⌋] }

/-- The second loop of goUntil: `while (!digitalRead (limit))` with the
same budget break, stepping at the final mot_delay (unchanged). -/
def cruiseLoop (σ : ℕ → Bool) (steps : ℤ) : ℕ → MoveSt → Option MoveSt
  | 0, _ => none
  | fuel + 1, st =>
    if σ st.t then some { st with t := st.t + 1 }
    else if steps ≠ LIMIT ∧ steps < (st.k : ℤ) then some { st with t := st.t + 1 }
    else cruiseLoop σ steps fuel { st with t := st.t + 1, k := st.k + 1, out := st.out ++ [⌊st.v⌋] }

/-- goUntil of src/src/WoodStain.ino (95-154): decrement =
(p.max - p.min) / p.stepsToStart computed up front (when R = 0 the C float
division yields inf/NaN but the value is never read, because the ramp loop
does not run; the ℚ convention d = 0 is equally unread), mot_delay starts
at p.max, then the two loops; we return the list of applied per-step
delays.  The motor enable writes and rest delays of the source do not
touch the delay sequence and are omitted. -/
def goUntil (σ : ℕ → Bool) (m M R : ℕ) (steps : ℤ) (fuel : ℕ) : Option (List ℤ) :=
  match rampLoop σ steps R (m : ℚ) (((M : ℚ) - (m : ℚ)) / (R : ℚ)) fuel ⟨0, 0, (M : ℚ), []⟩ with
  | none => none
  | some st1 =>
    match cruiseLoop σ steps fuel st1 with
    | none => none
    | some st2 => some st2.out

/-- The transition loop of WoodStain.ino (216-221):
`for (i = 0; i < STROKE_GAP; i++) { if (digitalRead (limit)) Stop; go; }`.
rem is the remaining iteration count, i the steps issued so far (one limit
read per iteration, indexed by i). -/
def transitionLoop (σ : ℕ → Bool) : ℕ → ℕ → Outcome ℕ
  | 0, i => Outcome.ok i
  | rem + 1, i =>
    if σ i then Outcome.halted StopReason.limitBeforeTransitionDone
    else transitionLoop σ rem (i + 1)

/-- transition of WoodStain.ino (205-222), step count only: the full
STROKE_GAP budget. -/
def transitionModel (σ : ℕ → Bool) : Outcome ℕ :=
  transitionLoop σ STROKE_GAP 0

/-- A nonnegative step budget is never the LIMIT sentinel. -/
theorem natCast_ne_sentinel (N : ℕ) : (N : ℤ) ≠ LIMIT := by
  unfold LIMIT
  omega

/-- Helper: the transition loop with the limit never pressed runs its full
budget and returns. -/
theorem transitionLoop_never_pressed :
    ∀ rem i, transitionLoop (fun _ => false) rem i = Outcome.ok (i + rem) := by
  intro rem
  induction rem with
  | zero => intro i; simp [transitionLoop]
  | succ n ih =>
    intro i
    unfold transitionLoop
    rw [if_neg (by simp)]
    rw [ih (i + 1)]
    congr 1
    omega

/-- Helper: the ramp loop with the limit never pressed and budget N ends
with stepsSoFar = min R (N+1), having issued that many pulses. -/
theorem ramp_false_count (N R : ℕ) (m d : ℚ) :
    ∀ fuel st, st.k ≤ min R (N + 1) → min R (N + 1) + 2 - st.k ≤ fuel →
      ∃ st1, rampLoop (fun _ => false) (N : ℤ) R m d fuel st = some st1 ∧
        st1.out.length = st.out.length + (min R (N + 1) - st.k) ∧
        st1.k = min R (N + 1) := by
  intro fuel
  induction fuel with
  | zero => intro st hk hf; omega
  | succ n ih =>
    intro st hk hf
    unfold rampLoop
    rw [if_neg (by simp)]
    by_cases hR : R ≤ st.k
    · have hkR : st.k = min R (N + 1) := by omega
      rw [if_pos hR]
      exact ⟨_, rfl, by simp [hkR], by simp [hkR]⟩
    · by_cases hBr : (N : ℤ) < (st.k : ℤ)
      · have hkN : st.k = min R (N + 1) := by omega
        rw [if_neg (by omega), if_pos ⟨natCast_ne_sentinel N, hBr⟩]
        exact ⟨_, rfl, by simp [hkN], by simp [hkN]⟩
      · rw [if_neg (by omega), if_neg (by intro h; exact absurd h.2 hBr)]
        have hk2 : st.k + 1 ≤ min R (N + 1) := by omega
        obtain ⟨st1, h1, hlen, hkk⟩ :=
          ih { t := st.t + 1, k := st.k + 1, v := rampUpdate m d st.v,
               out := st.out ++ [⌊st.v⌋] } hk2
            (show min R (N + 1) + 2 - (st.k + 1) ≤ n by omega)
        refine ⟨st1, h1, ?_, hkk⟩
        simp only [List.length_append, List.length_singleton] at hlen
        omega

/-- Helper: the cruise loop with the limit never pressed and budget N ends
with stepsSoFar = N + 1, issuing one pulse per counter value up to N. -/
theorem cruise_false_count (N : ℕ) :
    ∀ fuel st, st.k ≤ N + 1 → N + 2 - st.k ≤ fuel →
      ∃ st2, cruiseLoop (fun _ => false) (N : ℤ) fuel st = some st2 ∧
        st2.out.length = st.out.length + (N + 1 - st.k) := by
  intro fuel
  induction fuel with
  | zero => intro st hk hf; omega
  | succ n ih =>
    intro st hk hf
    unfold cruiseLoop
    rw [if_neg (by simp)]
    by_cases hBr : (N : ℤ) < (st.k : ℤ)
    · have hkN : st.k = N + 1 := by omega
      rw [if_pos ⟨natCast_ne_sentinel N, hBr⟩]
      exact ⟨_, rfl, by simp [hkN]⟩
    · rw [if_neg (by intro h; exact absurd h.2 hBr)]
      obtain ⟨st2, h2, hlen⟩ :=
        ih { st with t := st.t + 1, k := st.k + 1, out := st.out ++ [⌊st.v⌋] }
          (show st.k + 1 ≤ N + 1 by omega) (show N + 2 - (st.k + 1) ≤ n by omega)
      refine ⟨st2, h2, ?_⟩
      simp only [List.length_append, List.length_singleton] at hlen
      omega

/-- Claim C3 amended: with the limit switch never read pressed and a step
budget N (not the LIMIT sentinel), goUntil issues exactly N + 1 step
pulses and returns - one more than its budget, because the break guard is
`stepsSoFar > steps` instead of `>=`.  The induction-motor transition
(WoodStain.ino 205-222), by contrast, issues exactly its budget g and
returns. -/
theorem C3_step_budget (N R m M g fuel : ℕ) (hfuel : R + N + 3 ≤ fuel) :
    (goUntil (fun _ => false) m M R (N : ℤ) fuel).map List.length = some (N + 1) ∧
    transitionLoop (fun _ => false) g 0 = Outcome.ok g := by
  constructor
  · obtain ⟨st1, h1, hlen1, hk1⟩ :=
      ramp_false_count N R (m : ℚ) (((M : ℚ) - (m : ℚ)) / (R : ℚ))
        fuel ⟨0, 0, (M : ℚ), []⟩ (show (0 : ℕ) ≤ min R (N + 1) by omega)
        (show min R (N + 1) + 2 - 0 ≤ fuel by omega)
    obtain ⟨st2, h2, hlen2⟩ :=
      cruise_false_count N fuel st1 (show st1.k ≤ N + 1 by omega)
        (show N + 2 - st1.k ≤ fuel by omega)
    unfold goUntil
    simp only [h1, h2, Option.map_some', Option.some.injEq]
    simp only [List.length_nil] at hlen1
    omega
  · have := transitionLoop_never_pressed g 0
    simpa using this

/-- Witness for C3_step_budget at N = 0, R = 1, m = M = 1, g = 2,
fuel = 4: one pulse is issued against a budget of zero. -/
theorem C3_step_budget_witness :
    1 + 0 + 3 ≤ 4 ∧
      ((goUntil (fun _ => false) 1 1 1 ((0 : ℕ) : ℤ) 4).map List.length = some (0 + 1) ∧
        transitionLoop (fun _ => false) 2 0 = Outcome.ok 2) :=
  ⟨by decide, C3_step_budget 0 1 1 1 2 4 (by decide)⟩

/-- Counterexample for C3 as stated: budget N = 0 with the limit never
pressed should issue exactly 0 pulses and never more than 0; the code
issues 1. -/
theorem C3_counterexample :
    goUntil (fun _ => false) 1 1 1 0 8 = some [1] ∧
      (goUntil (fun _ => false) 1 1 1 0 8).map List.length ≠ some 0 := by
  refine ⟨rfl, by decide⟩

/-- The mot_delay value before the k-th step of the ramp: M at step 0,
then one rampUpdate per ramp step. -/
def rampIter (m M d : ℚ) : ℕ → ℚ
  | 0 => M
  | k + 1 => rampUpdate m d (rampIter m M d k)

/-- A ramp update never increases the delay (the decrement is
nonnegative). -/
theorem rampUpdate_le (m d v : ℚ) (hd : 0 ≤ d) : rampUpdate m d v ≤ v := by
  unfold rampUpdate
  split_ifs with h1 h2
  · linarith
  · linarith
  · exact le_refl v

/-- A ramp update never drops below the floor m. -/
theorem le_rampUpdate (m d v : ℚ) (hv : m ≤ v) : m ≤ rampUpdate m d v := by
  unfold rampUpdate
  split_ifs with h1 h2
  · linarith
  · exact le_refl m
  · exact hv

/-- The delay sequence stays at or above m. -/
theorem le_rampIter (m M d : ℚ) (hm : m ≤ M) : ∀ k, m ≤ rampIter m M d k := by
  intro k
  induction k with
  | zero => exact hm
  | succ n ih => exact le_rampUpdate m d _ ih

/-- One ramp step never increases the delay. -/
theorem rampIter_succ_le (m M d : ℚ) (hd : 0 ≤ d) (k : ℕ) :
    rampIter m M d (k + 1) ≤ rampIter m M d k :=
  rampUpdate_le m d _ hd

/-- The delay sequence is non-increasing. -/
theorem rampIter_antitone (m M d : ℚ) (hd : 0 ≤ d) :
    ∀ i j : ℕ, i ≤ j → rampIter m M d j ≤ rampIter m M d i := by
  intro i j hij
  induction hij with
  | refl => exact le_refl _
  | step h ih => exact le_trans (rampIter_succ_le m M d hd _) ih

/-- Closed form of the ramp: with decrement d = (M - m) / R and m ≤ M,
R ≥ 1, the delay before step k is exactly M - k * d for every k ≤ R. -/
theorem rampIter_closed (m M : ℚ) (R : ℕ) (hR : 1 ≤ R) (hm : m ≤ M) :
    ∀ k, k ≤ R → rampIter m M ((M - m) / (R : ℚ)) k = M - k * ((M - m) / (R : ℚ)) := by
  have hRpos : (0 : ℚ) < (R : ℚ) := by exact_mod_cast hR
  have hRQ : ((R : ℚ)) ≠ 0 := ne_of_gt hRpos
  have hRd : (R : ℚ) * ((M - m) / (R : ℚ)) = M - m := mul_div_cancel₀ _ hRQ
  intro k
  induction k with
  | zero => intro _; simp [rampIter]
  | succ n ih =>
    intro hk
    have hn : n ≤ R := by omega
    have hIH := ih hn
    show rampUpdate m ((M - m) / (R : ℚ)) (rampIter m M ((M - m) / (R : ℚ)) n) = _
    rw [hIH]
    by_cases hMm : M - m = 0
    · have hd : (M - m) / (R : ℚ) = 0 := by rw [hMm, zero_div]
      have hMem : M = m := by linarith
      rw [hd, hMem]
      simp [rampUpdate]
    · have hlt : m < M := lt_of_le_of_ne hm (by intro h; exact hMm (by rw [h]; ring))
      have hdpos : 0 < (M - m) / (R : ℚ) := div_pos (by linarith) hRpos
      have hnR : ((n : ℚ)) < (R : ℚ) := by exact_mod_cast Nat.lt_of_succ_le hk
      have hc1 : M - (n : ℚ) * ((M - m) / (R : ℚ)) > m := by
        have := mul_lt_mul_of_pos_right hnR hdpos
        linarith [hRd]
      have hnR1 : ((n : ℚ) + 1) ≤ (R : ℚ) := by exact_mod_cast hk
      have hc2 : M - (n : ℚ) * ((M - m) / (R : ℚ)) - (M - m) / (R : ℚ) ≥ m := by
        have := mul_le_mul_of_nonneg_right hnR1 (le_of_lt hdpos)
        nlinarith [hRd]
      unfold rampUpdate
      rw [if_pos hc1, if_pos hc2]
      push_cast
      ring

/-- The delay reaches exactly m at ramp step R. -/
theorem rampIter_at_R (m M : ℚ) (R : ℕ) (hR : 1 ≤ R) (hm : m ≤ M) :
    rampIter m M ((M - m) / (R : ℚ)) R = m := by
  rw [rampIter_closed m M R hR hm R (le_refl R)]
  have hRQ : ((R : ℚ)) ≠ 0 := by
    have : (0 : ℚ) < (R : ℚ) := by exact_mod_cast hR
    exact ne_of_gt this
  field_simp

/-- Invariant of the ramp loop in go-until-limit mode (steps = LIMIT): the
state keeps stepsSoFar within the ramp budget, mot_delay equal to the
closed recursion rampIter at stepsSoFar, the output equal to the floors of
rampIter over the step indices so far; and it exits either with the ramp
complete (k = R) or right after a pressed limit read. -/
theorem ramp_limit_spec (σ : ℕ → Bool) (R : ℕ) (m M d : ℚ) :
    ∀ fuel st st1, rampLoop σ LIMIT R m d fuel st = some st1 →
      st.k ≤ R → st.v = rampIter m M d st.k →
      st.out = (List.range st.k).map (fun i => ⌊rampIter m M d i⌋) →
      (st1.k ≤ R ∧ st1.v = rampIter m M d st1.k ∧
        st1.out = (List.range st1.k).map (fun i => ⌊rampIter m M d i⌋) ∧
        (st1.k = R ∨ σ (st1.t - 1) = true)) := by
  intro fuel
  induction fuel with
  | zero => intro st st1 h; simp [rampLoop] at h
  | succ n ih =>
    intro st st1 h hk hv hout
    unfold rampLoop at h
    by_cases hσ : σ st.t
    · rw [if_pos hσ] at h
      cases h
      exact ⟨hk, hv, hout, Or.inr hσ⟩
    · rw [if_neg hσ] at h
      by_cases hR : R ≤ st.k
      · rw [if_pos hR] at h
        cases h
        exact ⟨hk, hv, hout, Or.inl (le_antisymm hk hR)⟩
      · rw [if_neg hR, if_neg (by simp)] at h
        have hv2 : rampUpdate m d st.v = rampIter m M d (st.k + 1) := by
          rw [hv]
          simp [rampIter]
        have hout2 : st.out ++ [⌊st.v⌋] =
            (List.range (st.k + 1)).map (fun i => ⌊rampIter m M d i⌋) := by
          rw [hout, hv, List.range_succ, List.map_append]
          simp
        exact ih _ st1 h (show st.k + 1 ≤ R by omega) hv2 hout2

/-- The cruise loop in go-until-limit mode appends some number of pulses
at the (unchanged) entry delay. -/
theorem cruise_limit_replicate (σ : ℕ → Bool) :
    ∀ fuel st st2, cruiseLoop σ LIMIT fuel st = some st2 →
      ∃ j, st2.out = st.out ++ List.replicate j ⌊st.v⌋ := by
  intro fuel
  induction fuel with
  | zero => intro st st2 h; simp [cruiseLoop] at h
  | succ n ih =>
    intro st st2 h
    unfold cruiseLoop at h
    by_cases hσ : σ st.t
    · rw [if_pos hσ] at h
      cases h
      exact ⟨0, by simp⟩
    · rw [if_neg hσ, if_neg (by simp)] at h
      obtain ⟨j, hj⟩ := ih _ st2 h
      refine ⟨j + 1, ?_⟩
      rw [hj, List.append_assoc, List.singleton_append, ← List.replicate_succ]

/-- If the first cruise read is pressed the cruise loop adds no pulses. -/
theorem cruise_limit_exit (σ : ℕ → Bool) (fuel : ℕ) (st st2 : MoveSt)
    (hσ : σ st.t = true) (h : cruiseLoop σ LIMIT fuel st = some st2) :
    st2.out = st.out := by
  cases fuel with
  | zero => simp [cruiseLoop] at h
  | succ n =>
    unfold cruiseLoop at h
    rw [if_pos hσ] at h
    cases h
    rfl

/-- Monotone read streams: once the limit switch reads pressed it stays
pressed (the head rests against the physical switch). -/
def MonotoneReads (σ : ℕ → Bool) : Prop :=
  ∀ i j : ℕ, i ≤ j → σ i = true → σ j = true

/-- Shape of a completed go-until-limit move with a monotone limit stream:
the output is the floors of rampIter over the first K step indices
(K ≤ R), followed by j copies of the delay at K, where cruise pulses can
only occur after a complete ramp (j ≠ 0 forces K = R). -/
theorem goUntil_limit_shape (m M R : ℕ) (σ : ℕ → Bool) (fuel : ℕ) (L : List ℤ)
    (hmono : MonotoneReads σ)
    (hrun : goUntil σ m M R LIMIT fuel = some L) :
    ∃ K j, K ≤ R ∧ (j ≠ 0 → K = R) ∧
      L = (List.range K).map
            (fun i => ⌊rampIter (m : ℚ) (M : ℚ) (((M : ℚ) - (m : ℚ)) / (R : ℚ)) i⌋) ++
          List.replicate j
            ⌊rampIter (m : ℚ) (M : ℚ) (((M : ℚ) - (m : ℚ)) / (R : ℚ)) K⌋ := by
  unfold goUntil at hrun
  cases h1 : rampLoop σ LIMIT R (m : ℚ) (((M : ℚ) - (m : ℚ)) / (R : ℚ)) fuel
      ⟨0, 0, (M : ℚ), []⟩ with
  | none => rw [h1] at hrun; simp at hrun
  | some st1 =>
    simp only [h1] at hrun
    cases h2 : cruiseLoop σ LIMIT fuel st1 with
    | none => simp only [h2] at hrun; exact Option.noConfusion hrun
    | some st2 =>
      simp only [h2, Option.some.injEq] at hrun
      subst hrun
      obtain ⟨hk1, hv1, hout1, hexit⟩ :=
        ramp_limit_spec σ R (m : ℚ) (M : ℚ) (((M : ℚ) - (m : ℚ)) / (R : ℚ)) fuel
          ⟨0, 0, (M : ℚ), []⟩ st1 h1 (Nat.zero_le R) rfl (by simp)
      rcases hexit with hKR | hσexit
      · obtain ⟨j, hj⟩ := cruise_limit_replicate σ fuel st1 st2 h2
        refine ⟨st1.k, j, hk1, fun _ => hKR, ?_⟩
        rw [hj, hout1, hv1]
      · have hσ1 : σ st1.t = true := hmono _ _ (Nat.sub_le _ _) hσexit
        have hout2 : st2.out = st1.out := cruise_limit_exit σ fuel st1 st2 hσ1 h2
        refine ⟨st1.k, 0, hk1, fun h => absurd rfl h, ?_⟩
        rw [hout2, hout1]
        simp

/-- Claim C5 amended: in a go-until-limit move (steps = LIMIT) with ramp
parameters R ≥ 1, M ≥ m ≥ 0 and a monotone limit stream, the per-step
delays actually applied are non-increasing, start at M, and every step
from index R on is applied exactly at m (the ramp reaches m by step R and
the cruise stays there); all applied delays are at least m.  For R = 0 the
claim fails: the ramp loop never runs and the cruise stays at M (see the
counterexample). -/
theorem C5_ramp_profile (m M R : ℕ) (σ : ℕ → Bool) (fuel : ℕ) (L : List ℤ)
    (hR : 1 ≤ R) (hm : m ≤ M) (hmono : MonotoneReads σ)
    (hrun : goUntil σ m M R LIMIT fuel = some L) :
    (L = [] ∨ L.head? = some ((M : ℕ) : ℤ)) ∧
    List.Chain' (fun x y => y ≤ x) L ∧
    L.drop R = List.replicate (L.length - R) ((m : ℕ) : ℤ) ∧
    (∀ x ∈ L, ((m : ℕ) : ℤ) ≤ x) := by
  obtain ⟨K, j, hKR, hjK, rep⟩ := goUntil_limit_shape m M R σ fuel L hmono hrun
  have hmq : ((m : ℕ) : ℚ) ≤ ((M : ℕ) : ℚ) := by exact_mod_cast hm
  have hd0 : 0 ≤ ((M : ℚ) - (m : ℚ)) / (R : ℚ) :=
    div_nonneg (by linarith) (Nat.cast_nonneg R)
  have hatR : rampIter (m : ℚ) (M : ℚ) (((M : ℚ) - (m : ℚ)) / (R : ℚ)) R = (m : ℚ) :=
    rampIter_at_R (m : ℚ) (M : ℚ) R hR hmq
  have hlen : L.length = K + j := by
    rw [rep]
    simp
  have gv : ∀ (i : ℕ) (h : i < L.length),
      L[i] = ⌊rampIter (m : ℚ) (M : ℚ) (((M : ℚ) - (m : ℚ)) / (R : ℚ)) (min i R)⌋ := by
    intro i h
    have h2 : i < K + j := by omega
    rw [List.getElem_of_eq rep h]
    by_cases hiK : i < K
    · rw [List.getElem_append_left (by simpa using hiK), List.getElem_map,
        List.getElem_range, Nat.min_eq_left (by omega : i ≤ R)]
    · have hj0 : j ≠ 0 := by omega
      have hKReq : K = R := hjK hj0
      rw [List.getElem_append_right (by simpa using Nat.le_of_not_lt hiK),
        List.getElem_replicate, Nat.min_eq_right (by omega : R ≤ i), hKReq]
  refine ⟨?_, ?_, ?_, ?_⟩
  · rcases Nat.eq_zero_or_pos K with hK0 | hKpos
    · by_cases hj0 : j = 0
      · left
        rw [rep, hK0, hj0]
        rfl
      · exact absurd (hjK hj0) (by omega)
    · right
      obtain ⟨K2, rfl⟩ : ∃ K2, K = K2 + 1 := ⟨K - 1, by omega⟩
      rw [rep, List.range_succ_eq_map, List.map_cons, List.cons_append, List.head?_cons]
      simp [rampIter, Int.floor_natCast]
  · rw [List.chain'_iff_get]
    intro i h
    rw [List.get_eq_getElem, List.get_eq_getElem, gv i (by omega), gv (i + 1) (by omega)]
    apply Int.floor_le_floor
    apply rampIter_antitone _ _ _ hd0
    exact min_le_min (Nat.le_succ i) (le_refl R)
  · by_cases hj0 : j = 0
    · subst hj0
      have hlen2 : L.length ≤ R := by omega
      rw [List.drop_eq_nil_of_le hlen2]
      have : L.length - R = 0 := by omega
      rw [this, List.replicate_zero]
    · have hKReq : K = R := hjK hj0
      subst hKReq
      have hlj : L.length - K = j := by omega
      rw [hlj]
      conv_lhs => rw [rep]
      rw [List.drop_left' (by simp), hatR]
      congr 1
  · intro x hx
    rw [rep] at hx
    rcases List.mem_append.mp hx with hx1 | hx2
    · obtain ⟨i, _, rfl⟩ := List.mem_map.mp hx1
      have := le_rampIter (m : ℚ) (M : ℚ) (((M : ℚ) - (m : ℚ)) / (R : ℚ)) hmq i
      calc ((m : ℕ) : ℤ) = ⌊((m : ℕ) : ℚ)⌋ := (Int.floor_natCast m).symm
        _ ≤ _ := Int.floor_le_floor this
    · have hxe := List.eq_of_mem_replicate hx2
      subst hxe
      have := le_rampIter (m : ℚ) (M : ℚ) (((M : ℚ) - (m : ℚ)) / (R : ℚ)) hmq K
      calc ((m : ℕ) : ℤ) = ⌊((m : ℕ) : ℚ)⌋ := (Int.floor_natCast m).symm
        _ ≤ _ := Int.floor_le_floor this

/-- A monotone limit stream: pressed from the fifth read on. -/
def sigAfter4 : ℕ → Bool := fun t => decide (4 ≤ t)

/-- sigAfter4 is monotone. -/
theorem sigAfter4_mono : MonotoneReads sigAfter4 := by
  intro i j hij hi
  simp only [sigAfter4, decide_eq_true_eq] at hi ⊢
  omega

/-- Witness for C5_ramp_profile at m = 1, M = 3, R = 2 with the limit
pressed from the fifth read: the applied delays are [3, 2, 1]. -/
theorem C5_ramp_profile_witness :
    1 ≤ 2 ∧ 1 ≤ 3 ∧ MonotoneReads sigAfter4 ∧
      goUntil sigAfter4 1 3 2 LIMIT 20 = some [3, 2, 1] ∧
      ((([3, 2, 1] : List ℤ) = [] ∨ ([3, 2, 1] : List ℤ).head? = some ((3 : ℕ) : ℤ)) ∧
        List.Chain' (fun x y => y ≤ x) ([3, 2, 1] : List ℤ) ∧
        ([3, 2, 1] : List ℤ).drop 2 =
          List.replicate (([3, 2, 1] : List ℤ).length - 2) ((1 : ℕ) : ℤ) ∧
        (∀ x ∈ ([3, 2, 1] : List ℤ), ((1 : ℕ) : ℤ) ≤ x)) :=
  ⟨by decide, by decide, sigAfter4_mono, by with_unfolding_all rfl,
    C5_ramp_profile 1 3 2 sigAfter4 20 [3, 2, 1] (by decide) (by decide) sigAfter4_mono
      (by with_unfolding_all rfl)⟩

/-- Counterexample for C5 as stated (which demands the property for any
R ≥ 0): with rampSteps R = 0, minDelay 1, maxDelay 2 and the limit pressed
from the fourth read, the ramp loop never runs and the cruise applies
delay 2 on every step - the sequence [2, 2] never reaches minDelay 1,
although the claim requires every delay from step 0 on to equal 1. -/
theorem C5_counterexample :
    goUntil (fun t => decide (3 ≤ t)) 1 2 0 LIMIT 10 = some [2, 2] ∧
      ¬ (([2, 2] : List ℤ).drop 0 =
          List.replicate (([2, 2] : List ℤ).length - 0) ((1 : ℕ) : ℤ)) := by
  refine ⟨by rfl, by decide⟩

end WoodStain
